import Mathlib

set_option maxRecDepth 100000

/-!
Verification development for the koro-i18n rust compute worker
(`rust-worker/src/lib.rs`).  The worker exposes four pure-compute
operations (content fingerprinting, batch drift validation, dataset
sorting, quota-enforced upload preflight plus object-store/index write
planning).  Each Rust function used by the claims is translated below
into an executable Lean definition; theorems about those definitions
settle the claims.

Modelling conventions:
* `serde_json::Value` becomes the inductive `JValue`; JSON numbers are
  modelled as integers (`Int`).  The worker compares numbers through
  `as_f64`; the floating-point rounding of that cast is not modelled —
  none of the claims under consideration depends on it.
* External crate functions are treated as follows: SHA-256 (`sha2`),
  hex encoding (`hex`) and base64 decoding (`base64` STANDARD engine)
  are implemented concretely; the MessagePack decoder
  (`rmp_serde::from_slice`) and encoder (`rmp_serde::to_vec`) are
  parameters of the upload model, since the pipeline logic proved here
  holds for every decoder/encoder behaviour.
* The async handler `handle_upload` becomes a pure function from the
  request (plus the decoder/encoder parameters, the timestamp and the
  fresh uuids, which are ambient effects in the Rust code) to the
  response together with the full list of object-store writes and
  index upserts it performs.  Rust's stable `sort_by` is modelled as a
  stable insertion sort.
-/

/-- Model of `serde_json::Value`.  Objects and arrays carry their
entries as lists; JSON numbers are modelled as integers. -/
inductive JValue where
  | null : JValue
  | bool (b : Bool) : JValue
  | num (n : Int) : JValue
  | str (s : String) : JValue
  | arr (xs : List JValue) : JValue
  | obj (kvs : List (String × JValue)) : JValue

/-- `serde_json::Value::get(key)`: `Some` value for an object that has
the key, `None` otherwise. -/
def JValue.getKey : JValue → String → Option JValue
  | .obj kvs, k => kvs.lookup k
  | _, _ => none

/-- `Value::index` for string keys (`a[sort_by]`): the value under the
key, or `Null` when the key is absent or the value is not an object. -/
def JValue.atKey (v : JValue) (k : String) : JValue :=
  (v.getKey k).getD .null

/-- `Value::as_object().map(|o| o.len())` — the number of entries of an
object, `none` for anything else. -/
def JValue.objSize : JValue → Option Nat
  | .obj kvs => some kvs.length
  | _ => none

section Fingerprint

/-! ### Fingerprint engine: `hash_value` (SHA-256, first 16 hex chars) -/

/-- 32-bit truncation. -/
def w32 (n : Nat) : Nat := n % 2 ^ 32

/-- Right-rotation of a 32-bit word. -/
def rotr32 (k w : Nat) : Nat :=
  w32 (w / 2 ^ k + w % 2 ^ k * 2 ^ (32 - k))

/-- Bitwise complement on 32 bits. -/
def not32 (w : Nat) : Nat := 2 ^ 32 - 1 - w % 2 ^ 32

/-- The SHA-256 round constants (FIPS 180-4, written in decimal). -/
def shaK : List Nat :=
  [1116352408, 1899447441, 3049323471, 3921009573, 961987163, 1508970993,
   2453635748, 2870763221, 3624381080, 310598401, 607225278, 1426881987,
   1925078388, 2162078206, 2614888103, 3248222580, 3835390401, 4022224774,
   264347078, 604807628, 770255983, 1249150122, 1555081692, 1996064986,
   2554220882, 2821834349, 2952996808, 3210313671, 3336571891, 3584528711,
   113926993, 338241895, 666307205, 773529912, 1294757372, 1396182291,
   1695183700, 1986661051, 2177026350, 2456956037, 2730485921, 2820302411,
   3259730800, 3345764771, 3516065817, 3600352804, 4094571909, 275423344,
   430227734, 506948616, 659060556, 883997877, 958139571, 1322822218,
   1537002063, 1747873779, 1955562222, 2024104815, 2227730452, 2361852424,
   2428436474, 2756734187, 3204031479, 3329325298]

/-- The eight-word SHA-256 working state. -/
structure Sha8 where
  a : Nat
  b : Nat
  c : Nat
  d : Nat
  e : Nat
  f : Nat
  g : Nat
  hh : Nat

/-- SHA-256 initial state (FIPS 180-4, written in decimal). -/
def shaInit : Sha8 :=
  ⟨1779033703, 3144134277, 1013904242, 2773480762,
   1359893119, 2600822924, 528734635, 1541459225⟩

/-- Small sigma 0 of the message schedule. -/
def ssig0 (w : Nat) : Nat :=
  (rotr32 7 w) ^^^ (rotr32 18 w) ^^^ (w % 2 ^ 32 / 2 ^ 3)

/-- Small sigma 1 of the message schedule. -/
def ssig1 (w : Nat) : Nat :=
  (rotr32 17 w) ^^^ (rotr32 19 w) ^^^ (w % 2 ^ 32 / 2 ^ 10)

/-- Big Sigma 0. -/
def bsig0 (w : Nat) : Nat :=
  (rotr32 2 w) ^^^ (rotr32 13 w) ^^^ (rotr32 22 w)

/-- Big Sigma 1. -/
def bsig1 (w : Nat) : Nat :=
  (rotr32 6 w) ^^^ (rotr32 11 w) ^^^ (rotr32 25 w)

/-- Extend a 16-word chunk to the 64-word message schedule; the fuel
argument counts the remaining words to append (48 at the start). -/
def shaExtend (ws : List Nat) : Nat → List Nat
  | 0 => ws
  | n + 1 =>
    let i := ws.length
    let w := w32 (ssig1 (ws.getD (i - 2) 0) + ws.getD (i - 7) 0 +
                  ssig0 (ws.getD (i - 15) 0) + ws.getD (i - 16) 0)
    shaExtend (ws ++ [w]) n

/-- One SHA-256 compression round. -/
def shaRound (st : Sha8) (kw : Nat × Nat) : Sha8 :=
  let t1 := w32 (st.hh + bsig1 st.e +
    ((st.e &&& st.f) ^^^ (not32 st.e &&& st.g)) + kw.1 + kw.2)
  let t2 := w32 (bsig0 st.a +
    ((st.a &&& st.b) ^^^ (st.a &&& st.c) ^^^ (st.b &&& st.c)))
  ⟨w32 (t1 + t2), st.a, st.b, st.c, w32 (st.d + t1), st.e, st.f, st.g⟩

/-- Big-endian 32-bit word from four bytes. -/
def wordOfBytes (b0 b1 b2 b3 : Nat) : Nat :=
  b0 * 2 ^ 24 + b1 * 2 ^ 16 + b2 * 2 ^ 8 + b3

/-- Convert a list of bytes to big-endian 32-bit words (4 bytes each). -/
def wordsOfBytes : List Nat → List Nat
  | b0 :: b1 :: b2 :: b3 :: rest => wordOfBytes b0 b1 b2 b3 :: wordsOfBytes rest
  | _ => []

/-- Process one 64-byte chunk. -/
def shaChunk (st : Sha8) (chunk : List Nat) : Sha8 :=
  let ws := shaExtend (wordsOfBytes chunk) 48
  let e := (shaK.zip ws).foldl shaRound st
  ⟨w32 (st.a + e.a), w32 (st.b + e.b), w32 (st.c + e.c), w32 (st.d + e.d),
   w32 (st.e + e.e), w32 (st.f + e.f), w32 (st.g + e.g), w32 (st.hh + e.hh)⟩

/-- Split a list into 64-element chunks; the fuel argument (the list
length at the top-level call) bounds the recursion depth structurally
so that the definition evaluates inside the kernel. -/
def chunksAux : Nat → List Nat → List (List Nat)
  | 0, _ => []
  | _, [] => []
  | fuel + 1, x :: rest =>
    (x :: rest).take 64 :: chunksAux fuel ((x :: rest).drop 64)

/-- Split a list into 64-element chunks. -/
def chunks64 (l : List Nat) : List (List Nat) := chunksAux l.length l

/-- SHA-256 message padding: append `0x80`, zeros, then the bit length
as a 64-bit big-endian integer, reaching a multiple of 64 bytes. -/
def shaPad (msg : List Nat) : List Nat :=
  let l := msg.length
  let z := (64 + 55 - l % 64) % 64
  let bits := l * 8
  msg ++ [0x80] ++ List.replicate z 0 ++
    [bits / 2 ^ 56 % 256, bits / 2 ^ 48 % 256, bits / 2 ^ 40 % 256,
     bits / 2 ^ 32 % 256, bits / 2 ^ 24 % 256, bits / 2 ^ 16 % 256,
     bits / 2 ^ 8 % 256, bits % 256]

/-- Big-endian bytes of a 32-bit word. -/
def bytesOfWord (w : Nat) : List Nat :=
  [w / 2 ^ 24 % 256, w / 2 ^ 16 % 256, w / 2 ^ 8 % 256, w % 256]

/-- SHA-256 digest (32 bytes) of a byte sequence. -/
def sha256 (msg : List Nat) : List Nat :=
  let st := (chunks64 (shaPad msg)).foldl shaChunk shaInit
  bytesOfWord st.a ++ bytesOfWord st.b ++ bytesOfWord st.c ++ bytesOfWord st.d ++
  bytesOfWord st.e ++ bytesOfWord st.f ++ bytesOfWord st.g ++ bytesOfWord st.hh

/-- UTF-8 encoding of a single character (as byte values). -/
def charUtf8 (c : Char) : List Nat :=
  let n := c.toNat
  if n < 0x80 then [n]
  else if n < 0x800 then [0xc0 + n / 64, 0x80 + n % 64]
  else if n < 0x10000 then
    [0xe0 + n / 4096, 0x80 + n / 64 % 64, 0x80 + n % 64]
  else
    [0xf0 + n / 0x40000, 0x80 + n / 4096 % 64, 0x80 + n / 64 % 64, 0x80 + n % 64]

/-- UTF-8 bytes of a string (`str::as_bytes`). -/
def strBytes (s : String) : List Nat := s.data.flatMap charUtf8

/-- The sixteen lowercase hexadecimal digits. -/
def hexChars : List Char := "0123456789abcdef".data

/-- A single lowercase hex digit. -/
def hexDigit (n : Nat) : Char := hexChars.getD n '0'

/-- Lowercase hex encoding of a byte list (`hex::encode`), as the
character list of the produced string. -/
def hexList (bs : List Nat) : List Char :=
  bs.flatMap fun b => [hexDigit (b / 16 % 16), hexDigit (b % 16)]

/-- `hash_value`: SHA-256 of the string's UTF-8 bytes, hex encoded,
truncated to the first 16 characters (`hex_string[..16].to_string()`). -/
def hash_value (value : String) : String :=
  ⟨(hexList (sha256 (strBytes value))).take 16⟩

/-- `batch_hash_values`: `values.iter().map(|v| hash_value(v)).collect()`. -/
def batch_hash_values (values : List String) : List String :=
  values.map hash_value

end Fingerprint

section Validator

/-! ### Drift validator: `batch_validate_translations` -/

/-- Model of the Rust `TranslationToValidate` struct. -/
structure TranslationToValidate where
  id : String
  key : String
  source_hash : Option String
deriving DecidableEq

/-- Model of the Rust `ValidationResult` struct. -/
structure ValidationResult where
  id : String
  is_valid : Bool
  reason : Option String
deriving DecidableEq

/-- `batch_validate_translations`.  The Rust `HashMap<String, String>`
of source hashes is modelled as an association list; `HashMap::get`
becomes `List.lookup` (the first binding for the key). -/
def batch_validate_translations (translations : List TranslationToValidate)
    (source_hashes : List (String × String)) : List ValidationResult :=
  translations.map fun translation =>
    match source_hashes.lookup translation.key with
    | none => ⟨translation.id, false, some "Key no longer exists in source"⟩
    | some current_hash =>
      match translation.source_hash with
      | none => ⟨translation.id, false, some "Translation missing source tracking"⟩
      | some trans_hash =>
        if trans_hash ≠ current_hash then
          ⟨translation.id, false, some "Source value changed"⟩
        else
          ⟨translation.id, true, none⟩

end Validator

section R2Key

/-! ### Storage key derivation: `generate_r2_key` -/

/-- One character of `filename.replace(['/', '\\'], "-")`. -/
def sanitizeChar (c : Char) : Char :=
  if c = '/' ∨ c = '\\' then '-' else c

/-- The sanitized filename: every path separator replaced by a dash. -/
def sanitizeFilename (filename : String) : String :=
  ⟨filename.data.map sanitizeChar⟩

/-- `generate_r2_key`: the deterministic storage key
`format!("{}-{}-{}", project_id, lang, sanitized_filename)`. -/
def generate_r2_key (project_id lang filename : String) : String :=
  project_id ++ "-" ++ lang ++ "-" ++ sanitizeFilename filename

end R2Key

section SortModel

/-! ### Dataset sorter: `sort_items` -/

/-- Three-way comparison of naturals. -/
def cmpNat (a b : Nat) : Ordering :=
  if a < b then .lt else if b < a then .gt else .eq

/-- Three-way comparison of integers (the comparison of integral JSON
numbers through `as_f64`). -/
def cmpInt (a b : Int) : Ordering :=
  if a < b then .lt else if b < a then .gt else .eq

/-- Lexicographic comparison of character lists by code point.  Rust's
`str::cmp` compares UTF-8 bytes, which coincides with code-point
order. -/
def cmpCharList : List Char → List Char → Ordering
  | [], [] => .eq
  | [], _ :: _ => .lt
  | _ :: _, [] => .gt
  | a :: as, b :: bs =>
    match cmpNat a.toNat b.toNat with
    | .eq => cmpCharList as bs
    | o => o

/-- `String::cmp`. -/
def cmpString (a b : String) : Ordering := cmpCharList a.data b.data

/-- `bool::cmp`: `false < true`. -/
def cmpBool : Bool → Bool → Ordering
  | false, true => .lt
  | true, false => .gt
  | _, _ => .eq

/-- The field-value comparison of `sort_items`: strings compare
lexicographically, numbers numerically, booleans `false < true`, and
every other pairing (missing field, type mismatch, non-comparable
types) is `Equal`. -/
def cmpVals : JValue → JValue → Ordering
  | .str a, .str b => cmpString a b
  | .num a, .num b => cmpInt a b
  | .bool a, .bool b => cmpBool a b
  | _, _ => .eq

/-- The comparator closure passed to `items.sort_by`: extract
`a[sort_by]` and `b[sort_by]`, compare, and reverse the result when
`order == "desc"`. -/
def itemCmp (sort_by order : String) (a b : JValue) : Ordering :=
  let comparison := cmpVals (a.atKey sort_by) (b.atKey sort_by)
  if order = "desc" then comparison.swap else comparison

/-- `true` unless the comparison came out `Greater`. -/
def notGt : Ordering → Bool
  | .gt => false
  | _ => true

/-- Stable insertion of `x` into `l`: `x` goes immediately before the
first element `y` with `le x y`. -/
def insertCmp (le : α → α → Bool) (x : α) : List α → List α
  | [] => [x]
  | y :: ys => if le x y then x :: y :: ys else y :: insertCmp le x ys

/-- Stable insertion sort: the model of Rust's `Vec::sort_by`, whose
contract is a stable sort driven by the comparator. -/
def sortByCmp (le : α → α → Bool) : List α → List α
  | [] => []
  | x :: xs => insertCmp le x (sortByCmp le xs)

/-- `sort_items`: stable sort of the records by the comparator
closure (ascending means "not greater"). -/
def sort_items (items : List JValue) (sort_by order : String) : List JValue :=
  sortByCmp (fun a b => notGt (itemCmp sort_by order a b)) items

/-- Two records tied on "name" but distinguished by "id" (example
input for the round-trip property). -/
def tiedRecords : List JValue :=
  [JValue.obj [("name", JValue.str "a"), ("id", JValue.num 1)],
   JValue.obj [("name", JValue.str "a"), ("id", JValue.num 2)]]

/-- Two records with distinct "name" values (example input for the
round-trip property). -/
def namedRecords : List JValue :=
  [JValue.obj [("name", JValue.str "b")], JValue.obj [("name", JValue.str "a")]]

end SortModel

section UploadModel

/-! ### Ingestion pipeline: `handle_upload` -/

/-- Model of the Rust `FileToUpload` struct. -/
structure FileToUpload where
  lang : String
  filename : String
  contents : JValue
  metadata : String
  source_hash : String
  packed_data : Option String

/-- Model of the Rust `UploadRequest` struct. -/
structure UploadRequest where
  project_id : String
  branch : String
  commit_sha : String
  files : List FileToUpload

/-- Model of the Rust `D1FileRecord` struct; `total_keys` is the Rust
`i32`, modelled as an integer obtained by 32-bit wraparound. -/
structure D1FileRecord where
  id : String
  project_id : String
  branch : String
  commit_sha : String
  lang : String
  filename : String
  r2_key : String
  source_hash : String
  total_keys : Int
  uploaded_at : String
  last_updated : String

/-- The six-bit value of a standard-alphabet base64 character. -/
def b64Val (c : Char) : Option Nat :=
  if 'A' ≤ c ∧ c ≤ 'Z' then some (c.toNat - 'A'.toNat)
  else if 'a' ≤ c ∧ c ≤ 'z' then some (c.toNat - 'a'.toNat + 26)
  else if '0' ≤ c ∧ c ≤ '9' then some (c.toNat - '0'.toNat + 52)
  else if c = '+' then some 62
  else if c = '/' then some 63
  else none

/-- Decode base64 quartet by quartet (standard alphabet, mandatory
canonical padding, zero trailing bits), as the `base64` crate's
`STANDARD` engine does. -/
def b64Groups : List Char → Except String (List Nat)
  | [] => .ok []
  | c0 :: c1 :: c2 :: c3 :: rest =>
    match b64Val c0, b64Val c1 with
    | some v0, some v1 =>
      if c2 = '=' then
        if c3 = '=' ∧ rest = [] ∧ v1 % 16 = 0 then
          .ok [v0 * 4 + v1 / 16]
        else .error "invalid padding"
      else
        match b64Val c2 with
        | some v2 =>
          if c3 = '=' then
            if rest = [] ∧ v2 % 4 = 0 then
              .ok [v0 * 4 + v1 / 16, v1 % 16 * 16 + v2 / 4]
            else .error "invalid padding"
          else
            match b64Val c3 with
            | some v3 =>
              match b64Groups rest with
              | .error e => .error e
              | .ok tail =>
                .ok ([v0 * 4 + v1 / 16, v1 % 16 * 16 + v2 / 4, v2 % 4 * 64 + v3] ++ tail)
            | none => .error "invalid byte"
        | none => .error "invalid byte"
    | _, _ => .error "invalid byte"
  | _ => .error "invalid length"

/-- `base64::engine::general_purpose::STANDARD.decode`. -/
def base64Decode (s : String) : Except String (List Nat) := b64Groups s.data

/-- serde_json's escaping of one character inside a JSON string
literal. -/
def jsonEscapeChar (c : Char) : List Char :=
  if c = '"' then ['\\', '"']
  else if c = '\\' then ['\\', '\\']
  else if c = '\x08' then ['\\', 'b']
  else if c = '\x0c' then ['\\', 'f']
  else if c = '\n' then ['\\', 'n']
  else if c = '\r' then ['\\', 'r']
  else if c = '\t' then ['\\', 't']
  else if c.toNat < 32 then
    ['\\', 'u', '0', '0', hexDigit (c.toNat / 16), hexDigit (c.toNat % 16)]
  else [c]

/-- Compact JSON serialization (`serde_json::to_vec`), produced as
characters. -/
def jsonChars : JValue → List Char
  | .null => "null".data
  | .bool true => "true".data
  | .bool false => "false".data
  | .num n => (toString n).data
  | .str s => '"' :: s.data.flatMap jsonEscapeChar ++ ['"']
  | .arr xs =>
    '[' :: List.intercalate [','] (xs.attach.map fun z => jsonChars z.1) ++ [']']
  | .obj kvs =>
    '\x7b' :: List.intercalate [','] (kvs.attach.map fun z =>
      '"' :: z.1.1.data.flatMap jsonEscapeChar ++ ['"', ':'] ++ jsonChars z.1.2) ++ ['\x7d']
termination_by v => sizeOf v
decreasing_by
  · have := List.sizeOf_lt_of_mem z.2
    simp only [JValue.arr.sizeOf_spec]
    omega
  · obtain ⟨⟨k, v⟩, hm⟩ := z
    have := List.sizeOf_lt_of_mem hm
    simp only [JValue.obj.sizeOf_spec, Prod.mk.sizeOf_spec] at this ⊢
    omega

/-- UTF-8 byte length of a character list. -/
def utf8Len (cs : List Char) : Nat := (cs.map Char.utf8Size).sum

/-- `serde_json::to_vec(v).len()`. -/
def json_byte_len (v : JValue) : Nat := utf8Len (jsonChars v)

/-- `count_keys_and_bytes`: derive the key count and byte size of one
file.  A pre-packed payload (when present) is base64- and
msgpack-decoded — both may fail — and its decoded structure supplies
the counts, preferring a nested "raw" object; otherwise the structured
`contents` field supplies them.  `dec` is the model parameter standing
for `rmp_serde::from_slice`. -/
def count_keys_and_bytes (dec : List Nat → Except String JValue)
    (file : FileToUpload) : Except String (Nat × Nat) :=
  match file.packed_data with
  | some packed =>
    match base64Decode packed with
    | .error e => .error ("Failed to decode base64: " ++ e)
    | .ok decoded =>
      match dec decoded with
      | .error e => .error ("Failed to decode msgpack: " ++ e)
      | .ok v =>
        let keys :=
          match v.getKey "raw" with
          | some raw => raw.objSize.getD 0
          | none => v.objSize.getD 0
        .ok (keys, decoded.length)
  | none =>
    match file.contents.objSize with
    | some k => .ok (k, json_byte_len file.contents)
    | none => .ok (0, 0)

/-- `MAX_KEYS_PER_FILE` of `handle_upload`. -/
def MAX_KEYS_PER_FILE : Nat := 10000

/-- `MAX_TOTAL_KEYS` of `handle_upload`. -/
def MAX_TOTAL_KEYS : Nat := 200000

/-- `MAX_BYTES_PER_FILE` of `handle_upload` (5 MiB). -/
def MAX_BYTES_PER_FILE : Nat := 5 * 1024 * 1024

/-- `MAX_TOTAL_BYTES` of `handle_upload` (50 MiB). -/
def MAX_TOTAL_BYTES : Nat := 50 * 1024 * 1024

/-- The per-file step of the preflight loop: count, then enforce the
per-file quotas; a count failure is a 400, a quota violation a 413. -/
def checkFile (dec : List Nat → Except String JValue) (file : FileToUpload) :
    Except (Nat × String) (Nat × Nat) :=
  match count_keys_and_bytes dec file with
  | .error err => .error (400, "Invalid packed data for " ++ file.filename ++ ": " ++ err)
  | .ok (keys, bytes) =>
    if MAX_KEYS_PER_FILE < keys then
      .error (413, "File " ++ file.filename ++ " has too many keys")
    else if MAX_BYTES_PER_FILE < bytes then
      .error (413, "File " ++ file.filename ++ " is too large")
    else .ok (keys, bytes)

/-- The preflight loop over all files, accumulating totals; the first
failing file aborts the loop with its error. -/
def preflightLoop (dec : List Nat → Except String JValue) :
    List FileToUpload → Nat → Nat → Except (Nat × String) (Nat × Nat)
  | [], total_keys, total_bytes => .ok (total_keys, total_bytes)
  | f :: fs, total_keys, total_bytes =>
    match checkFile dec f with
    | .error e => .error e
    | .ok (keys, bytes) => preflightLoop dec fs (total_keys + keys) (total_bytes + bytes)

/-- The full preflight: per-file loop, then the aggregate quotas. -/
def preflight (dec : List Nat → Except String JValue) (files : List FileToUpload) :
    Except (Nat × String) (Nat × Nat) :=
  match preflightLoop dec files 0 0 with
  | .error e => .error e
  | .ok (total_keys, total_bytes) =>
    if MAX_TOTAL_KEYS < total_keys then .error (413, "Total key count exceeds limit")
    else if MAX_TOTAL_BYTES < total_bytes then .error (413, "Total upload size too large")
    else .ok (total_keys, total_bytes)

/-- One object-store write: key, stored bytes, custom metadata. -/
structure R2Put where
  key : String
  data : List Nat
  custom_metadata : List (String × String)

/-- The server-side fallback packing structure (`serde_json::json!`)
used when no pre-packed payload was sent. -/
def packFallback (req : UploadRequest) (now : String) (file : FileToUpload) : JValue :=
  .obj [("raw", file.contents), ("metadataBase64", .str file.metadata),
        ("sourceHash", .str file.source_hash), ("commitSha", .str req.commit_sha),
        ("uploadedAt", .str now)]

/-- The custom metadata attached to one object-store write. -/
def fileMeta (req : UploadRequest) (now : String) (file : FileToUpload) :
    List (String × String) :=
  [("project", req.project_id), ("lang", file.lang), ("filename", file.filename),
   ("commitSha", req.commit_sha), ("sourceHash", file.source_hash), ("uploadedAt", now)]

/-- Output of the object-store write loop: the writes performed, the
uploaded-file identifiers, the storage keys, and the error (if any)
that aborted the loop. -/
structure R2LoopOut where
  puts : List R2Put
  uploaded : List String
  keys : List String
  err : Option String

/-- The object-store write loop of `handle_upload`: per file, derive
the key, decode the pre-packed payload (a failure here aborts the
remaining loop, keeping earlier writes) or pack on the server (`enc`
models `rmp_serde::to_vec`), and write. -/
def r2Loop (enc : JValue → List Nat) (req : UploadRequest) (now : String) :
    List FileToUpload → R2LoopOut
  | [] => ⟨[], [], [], none⟩
  | f :: fs =>
    let r2_key := generate_r2_key req.project_id f.lang f.filename
    match f.packed_data with
    | some packed =>
      match base64Decode packed with
      | .error e => ⟨[], [], [], some ("Failed to decode packed data: " ++ e)⟩
      | .ok data =>
        let rest := r2Loop enc req now fs
        ⟨⟨r2_key, data, fileMeta req now f⟩ :: rest.puts,
         (f.lang ++ "/" ++ f.filename) :: rest.uploaded,
         r2_key :: rest.keys, rest.err⟩
    | none =>
      let data := enc (packFallback req now f)
      let rest := r2Loop enc req now fs
      ⟨⟨r2_key, data, fileMeta req now f⟩ :: rest.puts,
       (f.lang ++ "/" ++ f.filename) :: rest.uploaded,
       r2_key :: rest.keys, rest.err⟩

/-- 32-bit signed wraparound (`as i32`). -/
def wrap32 (n : Nat) : Int :=
  if n % 2 ^ 32 < 2 ^ 31 then (n % 2 ^ 32 : Nat) else (n % 2 ^ 32 : Nat) - 2 ^ 32

/-- The key count stored in the index record: the size of the
structured `contents` object (`file.contents.as_object()`), else 0. -/
def d1TotalKeys (f : FileToUpload) : Int :=
  match f.contents.objSize with
  | some k => wrap32 k
  | none => 0

/-- Build the index upsert records, one per file, consuming one fresh
id per file. -/
def d1Build (req : UploadRequest) (now : String) :
    List FileToUpload → List String → List D1FileRecord
  | [], _ => []
  | f :: fs, ids =>
    { id := ids.headD ""
      project_id := req.project_id
      branch := req.branch
      commit_sha := req.commit_sha
      lang := f.lang
      filename := f.filename
      r2_key := generate_r2_key req.project_id f.lang f.filename
      source_hash := f.source_hash
      total_keys := d1TotalKeys f
      uploaded_at := now
      last_updated := now } :: d1Build req now fs ids.tail

/-- The response of `handle_upload`: either the JSON success payload
or `Response::error(msg, status)`. -/
inductive UResponse where
  | ok (success : Bool) (uploaded_files : List String) (r2_keys : List String) : UResponse
  | err (status : Nat) (msg : String) : UResponse
deriving DecidableEq

/-- Whether the response is the success payload. -/
def UResponse.isOk : UResponse → Bool
  | .ok .. => true
  | .err .. => false

/-- Everything `handle_upload` does: the response it returns, the
object-store writes it performed, and the index upserts it executed. -/
structure UploadEffects where
  resp : UResponse
  r2Puts : List R2Put
  d1Records : List D1FileRecord

/-- `handle_upload` as a pure function.  `dec`/`enc` model the
MessagePack codec, `now` the timestamp, `ids` the stream of fresh
uuids.  A preflight failure returns its client error with no writes;
an object-store failure mid-loop returns a server error, keeps the
earlier writes and executes no index upsert; otherwise all files are
written and the index batch upsert runs. -/
def handle_upload (dec : List Nat → Except String JValue) (enc : JValue → List Nat)
    (req : UploadRequest) (now : String) (ids : List String) : UploadEffects :=
  match preflight dec req.files with
  | .error (status, msg) => ⟨.err status msg, [], []⟩
  | .ok _ =>
    let out := r2Loop enc req now req.files
    match out.err with
    | some e => ⟨.err 500 e, out.puts, []⟩
    | none => ⟨.ok true out.uploaded out.keys, out.puts, d1Build req now req.files ids⟩

/-- The key count the quota step uses for a file (0 when the file does
not decode). -/
def fileKeys (dec : List Nat → Except String JValue) (f : FileToUpload) : Nat :=
  match count_keys_and_bytes dec f with
  | .ok (k, _) => k
  | .error _ => 0

/-- The byte size the quota step uses for a file (0 when the file does
not decode). -/
def fileBytes (dec : List Nat → Except String JValue) (f : FileToUpload) : Nat :=
  match count_keys_and_bytes dec f with
  | .ok (_, b) => b
  | .error _ => 0

/-- The aggregate key count of a batch. -/
def batchKeys (dec : List Nat → Except String JValue) (files : List FileToUpload) : Nat :=
  (files.map (fileKeys dec)).sum

/-- The aggregate byte size of a batch. -/
def batchBytes (dec : List Nat → Except String JValue) (files : List FileToUpload) : Nat :=
  (files.map (fileBytes dec)).sum

/-- The quota-violation condition of the spec: some file exceeds a
per-file limit, or the batch exceeds an aggregate limit. -/
def quotaViolation (dec : List Nat → Except String JValue)
    (files : List FileToUpload) : Prop :=
  (∃ f ∈ files, MAX_KEYS_PER_FILE < fileKeys dec f ∨ MAX_BYTES_PER_FILE < fileBytes dec f) ∨
  MAX_TOTAL_KEYS < batchKeys dec files ∨ MAX_TOTAL_BYTES < batchBytes dec files

/-- The status of an error response (`none` for a success payload). -/
def respStatus : UResponse → Option Nat
  | .ok .. => none
  | .err status _ => some status

/-- A trivial MessagePack encoder instantiation for concrete runs. -/
def nilEnc : JValue → List Nat := fun _ => []

/-- A decoder instantiation whose decoded payload holds a "raw" object
with 10001 keys (drives the per-file key quota over its limit). -/
def bigObjDec : List Nat → Except String JValue :=
  fun _ => .ok (JValue.obj [("raw", JValue.obj (List.replicate 10001 ("k", JValue.null)))])

/-- A decoder instantiation whose decoded payload holds a "raw" object
with 2 keys. -/
def rawDec : List Nat → Except String JValue :=
  fun _ => .ok (JValue.obj [("raw", JValue.obj [("a", JValue.null), ("b", JValue.null)])])

/-- A file with a well-formed (empty) pre-packed payload and empty
structured contents; its key count comes from the decoder. -/
def packedFile : FileToUpload := ⟨"en", "f.json", JValue.obj [], "", "", some ""⟩

/-- A file whose pre-packed payload is not valid base64. -/
def badFile : FileToUpload := ⟨"en", "bad.json", JValue.obj [], "", "", some "!!!"⟩

/-- A one-file request around `packedFile`. -/
def packedReq : UploadRequest := ⟨"p", "main", "c", [packedFile]⟩

/-- A one-file request around `badFile`. -/
def badOnlyReq : UploadRequest := ⟨"p", "main", "c", [badFile]⟩

/-- A request whose first file is malformed and whose second file
violates the per-file key quota (under `bigObjDec`). -/
def maskedQuotaReq : UploadRequest := ⟨"p", "main", "c", [badFile, packedFile]⟩

/-- A request whose first file violates the per-file key quota (under
`bigObjDec`) and whose second file is malformed. -/
def maskedDecodeReq : UploadRequest := ⟨"p", "main", "c", [packedFile, badFile]⟩

end UploadModel

/-!
## Theorems

Helper lemmas first, then one theorem per claim (with its witness or
counterexample where applicable).
-/

/-- SHA-256 sanity check against the published digest of the empty
string (also pins down the constants of the implementation above). -/
theorem hash_value_empty : hash_value "" = "e3b0c44298fc1c14" := by decide

/-- SHA-256 sanity check mirroring the repository's `test_hash_value`
unit test input. -/
theorem hash_value_hello : hash_value "Hello, World!" = "dffd6021bb2bd5b0" := by decide

/-- SHA-256 sanity check against the FIPS 180-4 "abc" test vector. -/
theorem hash_value_abc : hash_value "abc" = "ba7816bf8f01cfea" := by decide

/-- SHA-256 sanity check on a 70-byte input, exercising the two-chunk
padding path. -/
theorem hash_value_two_blocks :
    hash_value ⟨List.replicate 70 'a'⟩ = "6bd5e5034855a112" := by decide

/-- Base64 sanity checks: a plain quartet, a padded quartet, and an
invalid input. -/
theorem base64Decode_checks :
    base64Decode "QUJD" = .ok [65, 66, 67] ∧
    base64Decode "QQ==" = .ok [65] ∧
    (base64Decode "!!!").isOk = false := ⟨rfl, rfl, rfl⟩

/-- The SHA-256 digest always consists of 32 bytes. -/
theorem sha256_length (msg : List Nat) : (sha256 msg).length = 32 := by
  simp [sha256, bytesOfWord]

/-- Hex encoding yields two characters per byte. -/
theorem hexList_length (bs : List Nat) : (hexList bs).length = 2 * bs.length := by
  induction bs with
  | nil => rfl
  | cons b bs ih => simp only [hexList, List.flatMap_cons] at ih ⊢; simp at ih ⊢; omega

/-- Hex digits of values below 16 are lowercase hex characters. -/
theorem hexDigit_mem {n : Nat} (h : n < 16) : hexDigit n ∈ hexChars := by
  interval_cases n <;> decide

/-- Every character produced by the hex encoder is a lowercase hex
character. -/
theorem mem_hexList {c : Char} {bs : List Nat} (h : c ∈ hexList bs) : c ∈ hexChars := by
  induction bs with
  | nil => cases h
  | cons b bs ih =>
    simp only [hexList, List.flatMap_cons, List.mem_append, List.mem_cons,
      List.not_mem_nil, or_false] at h
    rcases h with (rfl | rfl) | h
    · exact hexDigit_mem (Nat.mod_lt _ (by decide))
    · exact hexDigit_mem (Nat.mod_lt _ (by decide))
    · exact ih h

/-- Inserting an element permutes consing it. -/
theorem insertCmp_perm (le : α → α → Bool) (x : α) (l : List α) :
    List.Perm (insertCmp le x l) (x :: l) := by
  induction l with
  | nil => exact List.Perm.refl _
  | cons y ys ih =>
    by_cases h : le x y
    · simp [insertCmp, h]
    · simp only [insertCmp, h, Bool.false_eq_true, if_false]
      exact (ih.cons y).trans (List.Perm.swap x y ys)

/-- The stable sort permutes its input. -/
theorem sortByCmp_perm (le : α → α → Bool) (l : List α) :
    List.Perm (sortByCmp le l) l := by
  induction l with
  | nil => exact List.Perm.refl _
  | cons x xs ih => exact (insertCmp_perm le x (sortByCmp le xs)).trans (ih.cons x)

/-- Membership is preserved by the stable sort. -/
theorem mem_sortByCmp {le : α → α → Bool} {l : List α} {a : α} :
    a ∈ sortByCmp le l ↔ a ∈ l :=
  (sortByCmp_perm le l).mem_iff

/-- Inserting into a `le`-sorted list keeps it sorted, provided the
new element compares both ways with the list's members and `le` chains
through them. -/
theorem insertCmp_pairwise (le : α → α → Bool) (x : α) :
    ∀ l : List α, l.Pairwise (fun a b => le a b = true) →
      (∀ z ∈ l, le x z = true ∨ le z x = true) →
      (∀ a ∈ l, ∀ b ∈ l, le x a = true → le a b = true → le x b = true) →
      (insertCmp le x l).Pairwise (fun a b => le a b = true) := by
  intro l
  induction l with
  | nil => intro _ _ _; simp [insertCmp]
  | cons y ys ih =>
    intro hp htot htrans
    by_cases hxy : le x y
    · simp only [insertCmp, hxy, if_true]
      refine List.Pairwise.cons ?_ hp
      intro z hz
      rcases List.mem_cons.mp hz with rfl | hz'
      · exact hxy
      · exact htrans y (List.mem_cons_self y ys) z (List.mem_cons_of_mem y hz') hxy
          ((List.pairwise_cons.mp hp).1 z hz')
    · simp only [insertCmp, hxy, Bool.false_eq_true, if_false]
      have hyx : le y x = true :=
        (htot y (List.mem_cons_self y ys)).resolve_left (by simpa using hxy)
      refine List.Pairwise.cons ?_ ?_
      · intro z hz
        rcases List.mem_cons.mp ((insertCmp_perm le x ys).mem_iff.mp hz) with rfl | hz'
        · exact hyx
        · exact (List.pairwise_cons.mp hp).1 z hz'
      · refine ih (List.pairwise_cons.mp hp).2 ?_ ?_
        · exact fun z hz => htot z (List.mem_cons_of_mem y hz)
        · exact fun a ha b hb => htrans a (List.mem_cons_of_mem y ha) b (List.mem_cons_of_mem y hb)

/-- The stable sort produces a `le`-sorted list whenever `le` is total
and transitive on the members of the input. -/
theorem sortByCmp_pairwise (le : α → α → Bool) (l : List α)
    (htot : ∀ a ∈ l, ∀ b ∈ l, le a b = true ∨ le b a = true)
    (htrans : ∀ a ∈ l, ∀ b ∈ l, ∀ c ∈ l, le a b = true → le b c = true → le a c = true) :
    (sortByCmp le l).Pairwise (fun a b => le a b = true) := by
  induction l with
  | nil => simp [sortByCmp]
  | cons x xs ih =>
    refine insertCmp_pairwise le x (sortByCmp le xs)
      (ih ?_ ?_) ?_ ?_
    · exact fun a ha b hb =>
        htot a (List.mem_cons_of_mem x ha) b (List.mem_cons_of_mem x hb)
    · exact fun a ha b hb c hc =>
        htrans a (List.mem_cons_of_mem x ha) b (List.mem_cons_of_mem x hb)
          c (List.mem_cons_of_mem x hc)
    · intro z hz
      exact htot x (List.mem_cons_self x xs) z
        (List.mem_cons_of_mem x (mem_sortByCmp.mp hz))
    · intro a ha b hb hxa hab
      exact htrans x (List.mem_cons_self x xs) a
        (List.mem_cons_of_mem x (mem_sortByCmp.mp ha))
        b (List.mem_cons_of_mem x (mem_sortByCmp.mp hb)) hxa hab

/-- Inserting preserves a pairwise relation `K`, provided `K` holds
between the new element and every member in both relevant
directions. -/
theorem insertCmp_pairwise_rel (le : α → α → Bool) (K : α → α → Prop) (x : α) :
    ∀ l : List α, l.Pairwise K →
      (∀ z ∈ l, le x z = false → K z x) →
      (∀ z ∈ l, K x z) →
      (insertCmp le x l).Pairwise K := by
  intro l
  induction l with
  | nil => intro _ _ _; simp [insertCmp]
  | cons y ys ih =>
    intro hp h2 h3
    by_cases hxy : le x y
    · simp only [insertCmp, hxy, if_true]
      exact List.Pairwise.cons (fun z hz => h3 z hz) hp
    · simp only [insertCmp, hxy, Bool.false_eq_true, if_false]
      refine List.Pairwise.cons ?_ ?_
      · intro z hz
        rcases List.mem_cons.mp ((insertCmp_perm le x ys).mem_iff.mp hz) with rfl | hz'
        · exact h2 y (List.mem_cons_self y ys) (by simpa using hxy)
        · exact (List.pairwise_cons.mp hp).1 z hz'
      · refine ih (List.pairwise_cons.mp hp).2 ?_ ?_
        · exact fun z hz hf => h2 z (List.mem_cons_of_mem y hz) hf
        · exact fun z hz => h3 z (List.mem_cons_of_mem y hz)

/-- Stability of the stable sort: a pairwise relation `R` of the
input survives sorting on pairs the comparator regards as equal, for
any symmetric "equal" notion `E` under which `le` holds. -/
theorem sortByCmp_pairwise_stable (le : α → α → Bool) (E R : α → α → Prop)
    (hsymm : ∀ a b, E a b → E b a) (hE : ∀ a b, E a b → le a b = true) :
    ∀ l : List α, l.Pairwise R →
      (sortByCmp le l).Pairwise (fun a b => E a b → R a b) := by
  intro l
  induction l with
  | nil => intro _; simp [sortByCmp]
  | cons x xs ih =>
    intro hp
    refine insertCmp_pairwise_rel le _ x (sortByCmp le xs)
      (ih (List.pairwise_cons.mp hp).2) ?_ ?_
    · intro z _ hf hE'
      exact absurd (hE x z (hsymm z x hE')) (by simp [hf])
    · intro z hz _
      exact (List.pairwise_cons.mp hp).1 z (mem_sortByCmp.mp hz)

/-- Two sorted permutations of one another are equal, provided `le` is
antisymmetric on the members of the first list. -/
theorem eq_of_perm_of_pairwise (le : α → α → Bool) :
    ∀ l₁ l₂ : List α, List.Perm l₁ l₂ →
      l₁.Pairwise (fun a b => le a b = true) →
      l₂.Pairwise (fun a b => le a b = true) →
      (∀ a ∈ l₁, ∀ b ∈ l₁, le a b = true → le b a = true → a = b) →
      l₁ = l₂ := by
  intro l₁
  induction l₁ with
  | nil => intro l₂ h _ _ _; exact (h.symm.eq_nil ▸ rfl)
  | cons x t₁ ih =>
    intro l₂ h hp₁ hp₂ hanti
    cases l₂ with
    | nil => exact absurd h.eq_nil (by simp)
    | cons y t₂ =>
      by_cases hxy : x = y
      · subst hxy
        have ht := ih t₂ h.cons_inv (List.pairwise_cons.mp hp₁).2
          (List.pairwise_cons.mp hp₂).2
          (fun a ha b hb => hanti a (List.mem_cons_of_mem x ha) b (List.mem_cons_of_mem x hb))
        rw [ht]
      · have hx2 : x ∈ t₂ := by
          rcases List.mem_cons.mp (h.subset (List.mem_cons_self x t₁)) with h' | h'
          · exact absurd h' hxy
          · exact h'
        have hy1 : y ∈ t₁ := by
          rcases List.mem_cons.mp (h.symm.subset (List.mem_cons_self y t₂)) with h' | h'
          · exact absurd h'.symm hxy
          · exact h'
        have h1 : le x y = true := (List.pairwise_cons.mp hp₁).1 y hy1
        have h2 : le y x = true := (List.pairwise_cons.mp hp₂).1 x hx2
        exact absurd (hanti x (List.mem_cons_self x t₁) y (List.mem_cons_of_mem x hy1) h1 h2) hxy

/-- Inserting commutes with mapping when the comparator factors
through the mapped function. -/
theorem insertCmp_map (le : β → β → Bool) (f : α → β) (x : α) (l : List α) :
    (insertCmp (fun a b => le (f a) (f b)) x l).map f = insertCmp le (f x) (l.map f) := by
  induction l with
  | nil => rfl
  | cons y ys ih =>
    by_cases h : le (f x) (f y)
    · simp [insertCmp, h]
    · simp [insertCmp, h, ih]

/-- Sorting commutes with mapping when the comparator factors through
the mapped function. -/
theorem sortByCmp_map (le : β → β → Bool) (f : α → β) (l : List α) :
    (sortByCmp (fun a b => le (f a) (f b)) l).map f = sortByCmp le (l.map f) := by
  induction l with
  | nil => rfl
  | cons x xs ih => simp [sortByCmp, insertCmp_map, ih]

/-- Swapping an `Ordering` twice is the identity. -/
theorem swap_swap_eq (o : Ordering) : o.swap.swap = o := by cases o <;> rfl

/-- A swapped ordering is `gt` exactly when the original is `lt`. -/
theorem swap_eq_gt {o : Ordering} : o.swap = .gt ↔ o = .lt := by cases o <;> decide

/-- A swapped ordering is `eq` exactly when the original is. -/
theorem swap_eq_eq {o : Ordering} : o.swap = .eq ↔ o = .eq := by cases o <;> decide

/-- `notGt` is true exactly on `lt` and `eq`. -/
theorem notGt_iff {o : Ordering} : notGt o = true ↔ o ≠ .gt := by cases o <;> decide

/-- `cmpNat` is antisymmetric under `Ordering.swap`. -/
theorem cmpNat_swap (a b : Nat) : cmpNat a b = (cmpNat b a).swap := by
  unfold cmpNat
  by_cases h1 : a < b
  · have h2 : ¬ b < a := by omega
    simp [h1, h2, Ordering.swap]
  · by_cases h2 : b < a
    · simp [h1, h2, Ordering.swap]
    · simp [h1, h2, Ordering.swap]

/-- `cmpNat` is `lt` exactly on smaller arguments. -/
theorem cmpNat_eq_lt {a b : Nat} : cmpNat a b = .lt ↔ a < b := by
  unfold cmpNat
  by_cases h1 : a < b
  · simp [h1]
  · by_cases h2 : b < a <;> simp [h1, h2]

/-- `cmpNat` is `eq` exactly on equal arguments. -/
theorem cmpNat_eq_eq {a b : Nat} : cmpNat a b = .eq ↔ a = b := by
  unfold cmpNat
  by_cases h1 : a < b
  · simp [h1]; omega
  · by_cases h2 : b < a <;> simp [h1, h2] <;> omega

/-- `cmpInt` is antisymmetric under `Ordering.swap`. -/
theorem cmpInt_swap (a b : Int) : cmpInt a b = (cmpInt b a).swap := by
  unfold cmpInt
  by_cases h1 : a < b
  · have h2 : ¬ b < a := by omega
    simp [h1, h2, Ordering.swap]
  · by_cases h2 : b < a
    · simp [h1, h2, Ordering.swap]
    · simp [h1, h2, Ordering.swap]

/-- `cmpInt` is `lt` exactly on smaller arguments. -/
theorem cmpInt_eq_lt {a b : Int} : cmpInt a b = .lt ↔ a < b := by
  unfold cmpInt
  by_cases h1 : a < b
  · simp [h1]
  · by_cases h2 : b < a <;> simp [h1, h2]

/-- `cmpInt` strict comparisons chain. -/
theorem cmpInt_lt_trans {a b c : Int} (h1 : cmpInt a b = .lt) (h2 : cmpInt b c = .lt) :
    cmpInt a c = .lt :=
  cmpInt_eq_lt.mpr (lt_trans (cmpInt_eq_lt.mp h1) (cmpInt_eq_lt.mp h2))

/-- `cmpBool` is antisymmetric under `Ordering.swap`. -/
theorem cmpBool_swap (a b : Bool) : cmpBool a b = (cmpBool b a).swap := by
  cases a <;> cases b <;> rfl

/-- `cmpBool` strict comparisons chain (vacuously). -/
theorem cmpBool_lt_trans {a b c : Bool} (h1 : cmpBool a b = .lt) (h2 : cmpBool b c = .lt) :
    cmpBool a c = .lt := by
  cases a <;> cases b <;> cases c <;> simp_all [cmpBool]

/-- `cmpCharList` is antisymmetric under `Ordering.swap`. -/
theorem cmpCharList_swap : ∀ as bs : List Char, cmpCharList as bs = (cmpCharList bs as).swap := by
  intro as
  induction as with
  | nil => intro bs; cases bs <;> rfl
  | cons a as ih =>
    intro bs
    cases bs with
    | nil => rfl
    | cons b bs' =>
      simp only [cmpCharList]
      rw [cmpNat_swap a.toNat b.toNat]
      cases h : cmpNat b.toNat a.toNat with
      | lt => rfl
      | gt => rfl
      | eq => simpa [Ordering.swap] using ih bs'

/-- Lexicographic strict comparison of character lists chains. -/
theorem cmpCharList_lt_trans :
    ∀ as bs cs : List Char, cmpCharList as bs = .lt → cmpCharList bs cs = .lt →
      cmpCharList as cs = .lt := by
  intro as
  induction as with
  | nil =>
    intro bs cs h1 h2
    cases bs with
    | nil => exact absurd h1 (by decide)
    | cons b bs' =>
      cases cs with
      | nil => simp [cmpCharList] at h2
      | cons c cs' => rfl
  | cons a as' ih =>
    intro bs cs h1 h2
    cases bs with
    | nil => simp [cmpCharList] at h1
    | cons b bs' =>
      cases cs with
      | nil => simp [cmpCharList] at h2
      | cons c cs' =>
        simp only [cmpCharList] at h1 h2 ⊢
        cases hab : cmpNat a.toNat b.toNat with
        | gt => rw [hab] at h1; simp at h1
        | lt =>
          rw [hab] at h1
          cases hbc : cmpNat b.toNat c.toNat with
          | gt => rw [hbc] at h2; simp at h2
          | lt =>
            have : cmpNat a.toNat c.toNat = .lt :=
              cmpNat_eq_lt.mpr (Nat.lt_trans (cmpNat_eq_lt.mp hab) (cmpNat_eq_lt.mp hbc))
            rw [this]
          | eq =>
            have hb := cmpNat_eq_eq.mp hbc
            have : cmpNat a.toNat c.toNat = .lt :=
              cmpNat_eq_lt.mpr (hb ▸ cmpNat_eq_lt.mp hab)
            rw [this]
        | eq =>
          rw [hab] at h1
          have ha := cmpNat_eq_eq.mp hab
          cases hbc : cmpNat b.toNat c.toNat with
          | gt => rw [hbc] at h2; simp at h2
          | lt =>
            have : cmpNat a.toNat c.toNat = .lt := cmpNat_eq_lt.mpr (ha ▸ cmpNat_eq_lt.mp hbc)
            rw [this]
          | eq =>
            rw [hbc] at h2
            have hc := cmpNat_eq_eq.mp hbc
            have : cmpNat a.toNat c.toNat = .eq := cmpNat_eq_eq.mpr (ha.trans hc)
            rw [this]
            exact ih bs' cs' h1 h2

/-- `cmpVals` is antisymmetric under `Ordering.swap`. -/
theorem cmpVals_swap (u v : JValue) : cmpVals u v = (cmpVals v u).swap := by
  cases u <;> cases v <;>
    first
      | rfl
      | exact cmpCharList_swap _ _
      | exact cmpInt_swap _ _
      | exact cmpBool_swap _ _

/-- Comparator equality is symmetric. -/
theorem cmpVals_eq_symm {u v : JValue} (h : cmpVals u v = .eq) : cmpVals v u = .eq := by
  have hs := cmpVals_swap v u
  rw [hs, h]
  rfl

/-- `cmpVals` strict comparisons chain. -/
theorem cmpVals_lt_trans {u v w : JValue} (h1 : cmpVals u v = .lt) (h2 : cmpVals v w = .lt) :
    cmpVals u w = .lt := by
  cases u <;> cases v <;> simp only [cmpVals] at h1 <;> try simp at h1
  all_goals cases w <;> simp only [cmpVals] at h2 <;> try simp at h2
  all_goals simp only [cmpVals]
  · exact cmpBool_lt_trans h1 h2
  · exact cmpInt_lt_trans h1 h2
  · exact cmpCharList_lt_trans _ _ _ h1 h2

/-- A swapped ordering is `lt` exactly when the original is `gt`. -/
theorem swap_eq_lt {o : Ordering} : o.swap = .lt ↔ o = .gt := by cases o <;> decide

/-- `cmpVals` reversed strict comparisons chain. -/
theorem cmpVals_gt_trans {u v w : JValue} (h1 : cmpVals u v = .gt) (h2 : cmpVals v w = .gt) :
    cmpVals u w = .gt := by
  have l2 : cmpVals w v = .lt := by
    have := cmpVals_swap v w
    rw [h2] at this
    exact swap_eq_gt.mp this.symm
  have l1 : cmpVals v u = .lt := by
    have := cmpVals_swap u v
    rw [h1] at this
    exact swap_eq_gt.mp this.symm
  have := cmpVals_lt_trans l2 l1
  have hs := cmpVals_swap u w
  rw [this] at hs
  simpa [Ordering.swap] using hs

/-- Ascending order leaves the comparison untouched. -/
theorem itemCmp_asc (f : String) (a b : JValue) :
    itemCmp f "asc" a b = cmpVals (a.atKey f) (b.atKey f) := by
  simp [itemCmp]

/-- Descending order swaps the comparison. -/
theorem itemCmp_desc (f : String) (a b : JValue) :
    itemCmp f "desc" a b = (cmpVals (a.atKey f) (b.atKey f)).swap := by
  simp [itemCmp]

/-- The comparator closure is antisymmetric under swapping, whatever
the order string. -/
theorem itemCmp_swap (f o : String) (a b : JValue) :
    itemCmp f o a b = (itemCmp f o b a).swap := by
  unfold itemCmp
  by_cases h : o = "desc"
  · simp only [h, if_true, if_pos rfl, swap_swap_eq]
    exact (cmpVals_swap _ _).symm
  · simp only [h, if_false]
    exact cmpVals_swap _ _

/-- The comparator closure is `eq` exactly when the field values
compare equal, whatever the order string. -/
theorem itemCmp_eq_eq (f o : String) (a b : JValue) :
    itemCmp f o a b = .eq ↔ cmpVals (a.atKey f) (b.atKey f) = .eq := by
  unfold itemCmp
  by_cases h : o = "desc" <;> simp [h, swap_eq_eq]

/-- The "not greater" relation induced by the comparator closure is
total. -/
theorem le_itemCmp_total (f o : String) (a b : JValue) :
    notGt (itemCmp f o a b) = true ∨ notGt (itemCmp f o b a) = true := by
  rw [notGt_iff, notGt_iff]
  by_cases h : itemCmp f o a b = .gt
  · right
    rw [itemCmp_swap f o b a, h]
    decide
  · left; exact h

/-- C7: for every list of records, every field name and both
directions, `sort_items` reorders the input through a permutation of
positions under which any two records whose field values compare equal
— including every pairing with a missing field, a type mismatch or
non-comparable values, all of which the comparator treats as equal —
keep their relative input order; no pairing causes an error. -/
theorem sort_items_stable (field order : String) (l : List JValue) :
    ∃ ix : List (Fin l.length),
      List.Perm ix (List.finRange l.length) ∧
      sort_items l field order = ix.map l.get ∧
      ix.Pairwise (fun i j =>
        itemCmp field order (l.get i) (l.get j) = .eq → (i : Nat) < (j : Nat)) := by
  refine ⟨sortByCmp (fun i j => notGt (itemCmp field order (l.get i) (l.get j)))
    (List.finRange l.length), sortByCmp_perm _ _, ?_, ?_⟩
  · have h := sortByCmp_map (fun a b => notGt (itemCmp field order a b)) l.get
      (List.finRange l.length)
    rw [List.finRange_map_get] at h
    exact h.symm
  · refine sortByCmp_pairwise_stable _
      (fun i j => itemCmp field order (l.get i) (l.get j) = .eq)
      (fun i j => (i : Nat) < (j : Nat)) ?_ ?_ _ ?_
    · intro i j hij
      exact (itemCmp_eq_eq _ _ _ _).mpr (cmpVals_eq_symm ((itemCmp_eq_eq _ _ _ _).mp hij))
    · intro i j hij
      rw [hij]; rfl
    · exact List.pairwise_lt_finRange l.length

/-- C6 (amended): when any two records of the input whose field values
compare equal are identical records, sorting ascending and then
sorting the result descending on the same field yields exactly the
reverse of the ascending result. -/
theorem sort_roundtrip_of_injective_field (field : String) (l : List JValue)
    (H : ∀ a ∈ l, ∀ b ∈ l,
      cmpVals (a.atKey field) (b.atKey field) = .eq → a = b) :
    sort_items (sort_items l field "asc") field "desc" =
      (sort_items l field "asc").reverse := by
  have hmemA : ∀ x : JValue, x ∈ sort_items l field "asc" ↔ x ∈ l := fun x => mem_sortByCmp
  have hsortA : (sort_items l field "asc").Pairwise
      (fun a b => notGt (itemCmp field "asc" a b) = true) := by
    refine sortByCmp_pairwise _ l ?_ ?_
    · exact fun a _ b _ => le_itemCmp_total field "asc" a b
    · intro a ha b hb c hc h1 h2
      rw [notGt_iff, itemCmp_asc] at h1 h2 ⊢
      cases hab : cmpVals (a.atKey field) (b.atKey field) with
      | gt => exact absurd hab h1
      | eq =>
        have hab' := H a ha b hb hab
        subst hab'
        exact h2
      | lt =>
        cases hbc : cmpVals (b.atKey field) (c.atKey field) with
        | gt => exact absurd hbc h2
        | eq =>
          have hbc' := H b hb c hc hbc
          subst hbc'
          simp [hab]
        | lt =>
          have := cmpVals_lt_trans hab hbc
          simp [this]
  have hrev : (sort_items l field "asc").reverse.Pairwise
      (fun a b => notGt (itemCmp field "desc" a b) = true) := by
    rw [List.pairwise_reverse]
    refine hsortA.imp ?_
    intro a b hab
    rw [notGt_iff, itemCmp_asc] at hab
    rw [notGt_iff, itemCmp_desc]
    intro hcon
    rw [swap_eq_gt] at hcon
    apply hab
    rw [cmpVals_swap _ _, hcon]
    rfl
  have hsortB : (sort_items (sort_items l field "asc") field "desc").Pairwise
      (fun a b => notGt (itemCmp field "desc" a b) = true) := by
    refine sortByCmp_pairwise _ _ ?_ ?_
    · exact fun a _ b _ => le_itemCmp_total field "desc" a b
    · intro a ha b hb c hc h1 h2
      have ha' : a ∈ l := (hmemA a).mp ha
      have hb' : b ∈ l := (hmemA b).mp hb
      have hc' : c ∈ l := (hmemA c).mp hc
      simp only [notGt_iff, itemCmp_desc, ne_eq, swap_eq_gt] at h1 h2 ⊢
      cases hab : cmpVals (a.atKey field) (b.atKey field) with
      | lt => exact absurd hab h1
      | eq =>
        have hab' := H a ha' b hb' hab
        subst hab'
        exact h2
      | gt =>
        cases hbc : cmpVals (b.atKey field) (c.atKey field) with
        | lt => exact absurd hbc h2
        | eq =>
          have hbc' := H b hb' c hc' hbc
          subst hbc'
          simp [hab]
        | gt =>
          have := cmpVals_gt_trans hab hbc
          simp [this]
  have hperm : List.Perm (sort_items (sort_items l field "asc") field "desc")
      ((sort_items l field "asc").reverse) :=
    (sortByCmp_perm _ _).trans (List.reverse_perm _).symm
  refine eq_of_perm_of_pairwise (fun a b => notGt (itemCmp field "desc" a b))
    _ _ hperm hsortB hrev ?_
  intro a ha b hb h1 h2
  have ha' : a ∈ l := (hmemA a).mp (mem_sortByCmp.mp ha)
  have hb' : b ∈ l := (hmemA b).mp (mem_sortByCmp.mp hb)
  simp only [notGt_iff, itemCmp_desc, ne_eq, swap_eq_gt] at h1 h2
  refine H a ha' b hb' ?_
  cases hab : cmpVals (a.atKey field) (b.atKey field) with
  | lt => exact absurd hab h1
  | eq => rfl
  | gt =>
    exfalso
    apply h2
    rw [cmpVals_swap _ _, hab]
    rfl

/-- C6 counterexample: on two records tied on the sort field, the
descending sort of the ascending result is not the reverse of the
ascending result (stability keeps the tie order, the reverse flips
it). -/
theorem sort_roundtrip_fails_on_ties :
    sort_items (sort_items tiedRecords "name" "asc") "name" "desc" ≠
      (sort_items tiedRecords "name" "asc").reverse := by
  intro h
  have e1 : sort_items (sort_items tiedRecords "name" "asc") "name" "desc" =
      [JValue.obj [("name", JValue.str "a"), ("id", JValue.num 1)],
       JValue.obj [("name", JValue.str "a"), ("id", JValue.num 2)]] := rfl
  have e2 : (sort_items tiedRecords "name" "asc").reverse =
      [JValue.obj [("name", JValue.str "a"), ("id", JValue.num 2)],
       JValue.obj [("name", JValue.str "a"), ("id", JValue.num 1)]] := rfl
  rw [e1, e2] at h
  simp at h

/-- C6 witness: on two records with distinct field values the
hypothesis of the amended round-trip theorem holds and the round-trip
equality follows from it. -/
theorem sort_roundtrip_witness :
    (∀ a ∈ namedRecords, ∀ b ∈ namedRecords,
      cmpVals (a.atKey "name") (b.atKey "name") = .eq → a = b) ∧
    sort_items (sort_items namedRecords "name" "asc") "name" "desc" =
      (sort_items namedRecords "name" "asc").reverse := by
  have hH : ∀ a ∈ namedRecords, ∀ b ∈ namedRecords,
      cmpVals (a.atKey "name") (b.atKey "name") = .eq → a = b := by
    intro a ha b hb hcmp
    simp only [namedRecords, List.mem_cons, List.not_mem_nil, or_false] at ha hb
    rcases ha with rfl | rfl <;> rcases hb with rfl | rfl
    · rfl
    · exact absurd hcmp (by decide)
    · exact absurd hcmp (by decide)
    · rfl
  exact ⟨hH, sort_roundtrip_of_injective_field "name" namedRecords hH⟩

/-- C4: for every string (including the empty string), `hash_value`
returns a string of exactly 16 lowercase hexadecimal characters equal
to the first 16 hex characters of the SHA-256 digest of the input's
UTF-8 bytes, and equal inputs always give equal fingerprints (pure
total function, no error condition). -/
theorem hash_value_spec (s : String) :
    (hash_value s).length = 16 ∧
    (hash_value s).data = (hexList (sha256 (strBytes s))).take 16 ∧
    (∀ c ∈ (hash_value s).data, c ∈ hexChars) ∧
    (∀ t : String, s = t → hash_value s = hash_value t) := by
  refine ⟨?_, rfl, ?_, fun t ht => by rw [ht]⟩
  · have e : (hash_value s).length = ((hexList (sha256 (strBytes s))).take 16).length := rfl
    rw [e, List.length_take, hexList_length, sha256_length]
    decide
  · intro c hc
    have hc' : c ∈ (hexList (sha256 (strBytes s))).take 16 := hc
    exact mem_hexList (List.take_subset 16 _ hc')

/-- C4 witness: the specification instantiated at "abc". -/
theorem hash_value_spec_witness :
    (hash_value "abc").length = 16 ∧
    (hash_value "abc").data = (hexList (sha256 (strBytes "abc"))).take 16 ∧
    (∀ c ∈ (hash_value "abc").data, c ∈ hexChars) ∧
    (∀ t : String, "abc" = t → hash_value "abc" = hash_value t) :=
  hash_value_spec "abc"

/-- C8: the batch fingerprint operation has the input's length and
maps each position to the single-value fingerprint of the input at
that position. -/
theorem batch_hash_values_spec (values : List String) (i : Nat) :
    (batch_hash_values values).length = values.length ∧
    (batch_hash_values values)[i]? = values[i]?.map hash_value := by
  exact ⟨by simp [batch_hash_values], by simp [batch_hash_values]⟩

/-- C3 (amended): validation produces exactly one outcome per record,
in order, following the decision table — with the code's capitalized
reason strings ("Key no longer exists in source", "Translation
missing source tracking", "Source value changed") — and nothing else
influences an outcome. -/
theorem validate_decision_table (translations : List TranslationToValidate)
    (source_hashes : List (String × String)) :
    (batch_validate_translations translations source_hashes).length = translations.length ∧
    ∀ i : Nat,
      (batch_validate_translations translations source_hashes)[i]? =
        translations[i]?.map (fun t =>
          match source_hashes.lookup t.key with
          | none => ⟨t.id, false, some "Key no longer exists in source"⟩
          | some current =>
            match t.source_hash with
            | none => ⟨t.id, false, some "Translation missing source tracking"⟩
            | some recorded =>
              if recorded = current then ⟨t.id, true, none⟩
              else ⟨t.id, false, some "Source value changed"⟩) := by
  refine ⟨by simp [batch_validate_translations], fun i => ?_⟩
  simp only [batch_validate_translations, List.getElem?_map]
  cases h : translations[i]? with
  | none => rfl
  | some t =>
    simp only [Option.map_some']
    cases hl : source_hashes.lookup t.key with
    | none => rfl
    | some current =>
      cases hs : t.source_hash with
      | none => rfl
      | some recorded =>
        by_cases hc : recorded = current
        · simp [hc]
        · simp [hc]

/-- C3 counterexample: on the spec's own example input the produced
reasons are the code's capitalized strings, not the lowercase reasons
stated by the claim. -/
theorem validate_reason_capitalization :
    (batch_validate_translations
        [⟨"t1", "key1", some "hash1"⟩, ⟨"t2", "key2", some "hash_old"⟩,
         ⟨"t3", "key3", some "hash3"⟩]
        [("key1", "hash1"), ("key2", "hash2")]).map (fun r => r.reason) =
      [none, some "Source value changed", some "Key no longer exists in source"] ∧
    (some "Key no longer exists in source" : Option String) ≠
      some "key no longer exists in source" := by
  decide

/-- C9 (amended): the key is
`{project}-{language}-{sanitized filename}` and sanitization removes
every path separator from the filename; the whole key is free of path
separators provided the project identifier and the language contain
none (they are not sanitized); the derivation is deterministic. -/
theorem generate_r2_key_spec (project_id lang filename : String) :
    generate_r2_key project_id lang filename =
      project_id ++ "-" ++ lang ++ "-" ++ sanitizeFilename filename ∧
    (∀ c ∈ (sanitizeFilename filename).data, c ≠ '/' ∧ c ≠ '\\') ∧
    ('/' ∉ project_id.data → '\\' ∉ project_id.data →
     '/' ∉ lang.data → '\\' ∉ lang.data →
      ∀ c ∈ (generate_r2_key project_id lang filename).data, c ≠ '/' ∧ c ≠ '\\') := by
  have hsan : ∀ c ∈ (sanitizeFilename filename).data, c ≠ '/' ∧ c ≠ '\\' := by
    intro c hc
    have hc' : c ∈ filename.data.map sanitizeChar := hc
    obtain ⟨x, _, rfl⟩ := List.mem_map.mp hc'
    unfold sanitizeChar
    by_cases hx : x = '/' ∨ x = '\\'
    · simp [hx]
    · simp only [hx, if_false]
      exact not_or.mp hx
  refine ⟨rfl, hsan, ?_⟩
  intro h1 h2 h3 h4 c hc
  have e : (generate_r2_key project_id lang filename).data =
      (((project_id.data ++ ['-']) ++ lang.data) ++ ['-']) ++
        (sanitizeFilename filename).data := rfl
  rw [e] at hc
  simp only [List.mem_append, List.mem_singleton] at hc
  rcases hc with (((hp | hd) | hl) | hd2) | hs
  · exact ⟨fun hcc => h1 (hcc ▸ hp), fun hcc => h2 (hcc ▸ hp)⟩
  · subst hd; exact ⟨by decide, by decide⟩
  · exact ⟨fun hcc => h3 (hcc ▸ hl), fun hcc => h4 (hcc ▸ hl)⟩
  · subst hd2; exact ⟨by decide, by decide⟩
  · exact hsan c hs

/-- C9 witness: at a concrete separator-free project and language the
key formula holds and the key has no path separators. -/
theorem generate_r2_key_spec_witness :
    generate_r2_key "p" "en" "a/b" = "p-en-a-b" ∧
    (∀ c ∈ (generate_r2_key "p" "en" "a/b").data, c ≠ '/' ∧ c ≠ '\\') := by
  refine ⟨by decide, ?_⟩
  exact (generate_r2_key_spec "p" "en" "a/b").2.2 (by decide) (by decide) (by decide) (by decide)

/-- C9 counterexample: a path separator inside the project identifier
survives into the derived key — only the filename is sanitized, so the
claim that the resulting key contains no path-separator characters
fails. -/
theorem generate_r2_key_unsanitized_project :
    generate_r2_key "a/b" "en" "f" = "a/b-en-f" ∧
    '/' ∈ (generate_r2_key "a/b" "en" "f").data := by
  decide

/-- C10: the storage-key derivation is not injective: the distinct
triples ("p","en","a/b") and ("p","en","a-b") map to the same key. -/
theorem generate_r2_key_not_injective :
    (("p", "en", "a/b") : String × String × String) ≠ ("p", "en", "a-b") ∧
    generate_r2_key "p" "en" "a/b" = generate_r2_key "p" "en" "a-b" := by
  decide

/-- A successful count is the pair of extracted key and byte counts. -/
theorem count_eq_of_isOk {dec : List Nat → Except String JValue} {f : FileToUpload}
    (h : (count_keys_and_bytes dec f).isOk = true) :
    count_keys_and_bytes dec f = .ok (fileKeys dec f, fileBytes dec f) := by
  unfold fileKeys fileBytes
  cases hc : count_keys_and_bytes dec f with
  | error e => rw [hc] at h; simp [Except.isOk, Except.toBool] at h
  | ok kb => obtain ⟨k, b⟩ := kb; simp

/-- A file within both per-file quotas passes the per-file check. -/
theorem checkFile_ok {dec : List Nat → Except String JValue} {f : FileToUpload} {k b : Nat}
    (hc : count_keys_and_bytes dec f = .ok (k, b))
    (hk : k ≤ MAX_KEYS_PER_FILE) (hb : b ≤ MAX_BYTES_PER_FILE) :
    checkFile dec f = .ok (k, b) := by
  unfold checkFile
  rw [hc]
  simp [Nat.not_lt.mpr hk, Nat.not_lt.mpr hb]

/-- A file over the key quota fails the per-file check with a 413. -/
theorem checkFile_err_keys {dec : List Nat → Except String JValue} {f : FileToUpload}
    {k b : Nat} (hc : count_keys_and_bytes dec f = .ok (k, b))
    (hk : MAX_KEYS_PER_FILE < k) :
    ∃ m, checkFile dec f = .error (413, m) := by
  refine ⟨"File " ++ f.filename ++ " has too many keys", ?_⟩
  unfold checkFile
  rw [hc]
  simp [hk]

/-- A file over the byte quota (but within the key quota) fails the
per-file check with a 413. -/
theorem checkFile_err_bytes {dec : List Nat → Except String JValue} {f : FileToUpload}
    {k b : Nat} (hc : count_keys_and_bytes dec f = .ok (k, b))
    (hk : k ≤ MAX_KEYS_PER_FILE) (hb : MAX_BYTES_PER_FILE < b) :
    ∃ m, checkFile dec f = .error (413, m) := by
  refine ⟨"File " ++ f.filename ++ " is too large", ?_⟩
  unfold checkFile
  rw [hc]
  simp [Nat.not_lt.mpr hk, hb]

/-- A file that fails decoding fails the per-file check with a 400. -/
theorem checkFile_err_decode {dec : List Nat → Except String JValue} {f : FileToUpload}
    (h : (count_keys_and_bytes dec f).isOk = false) :
    ∃ m, checkFile dec f = .error (400, m) := by
  cases hc : count_keys_and_bytes dec f with
  | ok kb => rw [hc] at h; simp [Except.isOk, Except.toBool] at h
  | error e =>
    refine ⟨"Invalid packed data for " ++ f.filename ++ ": " ++ e, ?_⟩
    unfold checkFile
    rw [hc]

/-- With every file within the per-file quotas, the loop accumulates
exactly the batch totals. -/
theorem preflightLoop_ok (dec : List Nat → Except String JValue) :
    ∀ files : List FileToUpload,
      (∀ f ∈ files, (count_keys_and_bytes dec f).isOk = true ∧
        fileKeys dec f ≤ MAX_KEYS_PER_FILE ∧ fileBytes dec f ≤ MAX_BYTES_PER_FILE) →
      ∀ tk tb : Nat, preflightLoop dec files tk tb =
        .ok (tk + batchKeys dec files, tb + batchBytes dec files) := by
  intro files
  induction files with
  | nil => intro _ tk tb; simp [preflightLoop, batchKeys, batchBytes]
  | cons f fs ih =>
    intro h tk tb
    obtain ⟨hOk, hk, hb⟩ := h f (List.mem_cons_self f fs)
    have hcf := checkFile_ok (count_eq_of_isOk hOk) hk hb
    simp only [preflightLoop, hcf]
    rw [ih (fun g hg => h g (List.mem_cons_of_mem f hg))]
    simp only [batchKeys, batchBytes, List.map_cons, List.sum_cons]
    rw [Nat.add_assoc, Nat.add_assoc]

/-- A per-file quota violation (with every file decodable) makes the
loop fail with a 413. -/
theorem preflightLoop_err413 (dec : List Nat → Except String JValue) :
    ∀ files : List FileToUpload,
      (∀ f ∈ files, (count_keys_and_bytes dec f).isOk = true) →
      (∃ f ∈ files, MAX_KEYS_PER_FILE < fileKeys dec f ∨ MAX_BYTES_PER_FILE < fileBytes dec f) →
      ∀ tk tb : Nat, ∃ m, preflightLoop dec files tk tb = .error (413, m) := by
  intro files
  induction files with
  | nil => intro _ hex; exact absurd hex (by simp)
  | cons f fs ih =>
    intro hdec hex tk tb
    by_cases hf : MAX_KEYS_PER_FILE < fileKeys dec f ∨ MAX_BYTES_PER_FILE < fileBytes dec f
    · have hc := count_eq_of_isOk (hdec f (List.mem_cons_self f fs))
      rcases hf with hfk | hfb
      · obtain ⟨m, hm⟩ := checkFile_err_keys hc hfk
        exact ⟨m, by simp only [preflightLoop, hm]⟩
      · by_cases hfk : MAX_KEYS_PER_FILE < fileKeys dec f
        · obtain ⟨m, hm⟩ := checkFile_err_keys hc hfk
          exact ⟨m, by simp only [preflightLoop, hm]⟩
        · obtain ⟨m, hm⟩ := checkFile_err_bytes hc (by omega) hfb
          exact ⟨m, by simp only [preflightLoop, hm]⟩
    · have hf' := not_or.mp hf
      have hcf := checkFile_ok (count_eq_of_isOk (hdec f (List.mem_cons_self f fs)))
        (by omega) (by omega)
      have hex' : ∃ g ∈ fs, MAX_KEYS_PER_FILE < fileKeys dec g ∨
          MAX_BYTES_PER_FILE < fileBytes dec g := by
        rcases hex with ⟨g, hg, hgv⟩
        rcases List.mem_cons.mp hg with rfl | hg'
        · exact absurd hgv hf
        · exact ⟨g, hg', hgv⟩
      obtain ⟨m, hm⟩ := ih (fun g hg => hdec g (List.mem_cons_of_mem f hg)) hex'
        (tk + fileKeys dec f) (tb + fileBytes dec f)
      exact ⟨m, by simp only [preflightLoop, hcf]; exact hm⟩

/-- A non-decodable file behind a quota-clean prefix makes the loop
fail with a 400. -/
theorem preflightLoop_err400 (dec : List Nat → Except String JValue) :
    ∀ (pre : List FileToUpload) (bad : FileToUpload) (rest : List FileToUpload),
      (∀ f ∈ pre, (count_keys_and_bytes dec f).isOk = true ∧
        fileKeys dec f ≤ MAX_KEYS_PER_FILE ∧ fileBytes dec f ≤ MAX_BYTES_PER_FILE) →
      (count_keys_and_bytes dec bad).isOk = false →
      ∀ tk tb : Nat, ∃ m, preflightLoop dec (pre ++ bad :: rest) tk tb = .error (400, m) := by
  intro pre
  induction pre with
  | nil =>
    intro bad rest _ hbad tk tb
    obtain ⟨m, hm⟩ := checkFile_err_decode hbad
    exact ⟨m, by simp only [List.nil_append, preflightLoop, hm]⟩
  | cons f fs ih =>
    intro bad rest hpre hbad tk tb
    obtain ⟨hOk, hk, hb⟩ := hpre f (List.mem_cons_self f fs)
    have hcf := checkFile_ok (count_eq_of_isOk hOk) hk hb
    obtain ⟨m, hm⟩ := ih bad rest (fun g hg => hpre g (List.mem_cons_of_mem f hg)) hbad
      (tk + fileKeys dec f) (tb + fileBytes dec f)
    exact ⟨m, by simp only [List.cons_append, preflightLoop, hcf]; exact hm⟩

/-- The index records carry exactly the per-file structured-contents
key counts, in order. -/
theorem d1Build_map_totalKeys (req : UploadRequest) (now : String) :
    ∀ (files : List FileToUpload) (ids : List String),
      (d1Build req now files ids).map (fun r => r.total_keys) = files.map d1TotalKeys := by
  intro files
  induction files with
  | nil => intro _; rfl
  | cons f fs ih => intro ids; simp [d1Build, ih]

/-- C1 (amended): provided every file of the request decodes
successfully, the upload is rejected with status 413 — performing zero
object-store writes and zero index writes — exactly when some file
exceeds a per-file quota (more than 10000 keys or 5 MiB) or the batch
exceeds an aggregate quota (more than 200000 keys or 50 MiB); a
request within all limits is never rejected by the quota check.  When
a file fails to decode the request is instead rejected with 400, even
if a quota is also exceeded (see the counterexample). -/
theorem upload_quota_enforcement (dec : List Nat → Except String JValue)
    (enc : JValue → List Nat) (req : UploadRequest) (now : String) (ids : List String)
    (hdec : ∀ f ∈ req.files, (count_keys_and_bytes dec f).isOk = true) :
    (quotaViolation dec req.files ↔
      ∃ m, (handle_upload dec enc req now ids).resp = .err 413 m) ∧
    (quotaViolation dec req.files →
      (handle_upload dec enc req now ids).r2Puts = [] ∧
      (handle_upload dec enc req now ids).d1Records = []) := by
  by_cases hv : quotaViolation dec req.files
  · have hpre : ∃ m, preflight dec req.files = .error (413, m) := by
      by_cases hex : ∃ f ∈ req.files,
          MAX_KEYS_PER_FILE < fileKeys dec f ∨ MAX_BYTES_PER_FILE < fileBytes dec f
      · obtain ⟨m, hm⟩ := preflightLoop_err413 dec req.files hdec hex 0 0
        exact ⟨m, by simp only [preflight, hm]⟩
      · push_neg at hex
        have hall : ∀ f ∈ req.files, (count_keys_and_bytes dec f).isOk = true ∧
            fileKeys dec f ≤ MAX_KEYS_PER_FILE ∧ fileBytes dec f ≤ MAX_BYTES_PER_FILE :=
          fun f hf => ⟨hdec f hf, (hex f hf).1, (hex f hf).2⟩
        have hloop := preflightLoop_ok dec req.files hall 0 0
        rw [Nat.zero_add, Nat.zero_add] at hloop
        rcases hv with hex' | hk | hb
        · obtain ⟨f, hf, hfv⟩ := hex'
          have := hex f hf
          rcases hfv with hfv | hfv <;> omega
        · refine ⟨"Total key count exceeds limit", ?_⟩
          simp only [preflight, hloop]
          rw [if_pos hk]
        · by_cases hk2 : MAX_TOTAL_KEYS < batchKeys dec req.files
          · refine ⟨"Total key count exceeds limit", ?_⟩
            simp only [preflight, hloop]
            rw [if_pos hk2]
          · refine ⟨"Total upload size too large", ?_⟩
            simp only [preflight, hloop]
            rw [if_neg hk2, if_pos hb]
    obtain ⟨m, hm⟩ := hpre
    refine ⟨⟨fun _ => ⟨m, ?_⟩, fun _ => hv⟩, fun _ => ⟨?_, ?_⟩⟩
    · simp [handle_upload, hm]
    · simp [handle_upload, hm]
    · simp [handle_upload, hm]
  · have hex : ∀ f ∈ req.files,
        fileKeys dec f ≤ MAX_KEYS_PER_FILE ∧ fileBytes dec f ≤ MAX_BYTES_PER_FILE := by
      intro f hf
      constructor
      · by_contra hk
        push_neg at hk
        exact hv (Or.inl ⟨f, hf, Or.inl hk⟩)
      · by_contra hb
        push_neg at hb
        exact hv (Or.inl ⟨f, hf, Or.inr hb⟩)
    have hall : ∀ f ∈ req.files, (count_keys_and_bytes dec f).isOk = true ∧
        fileKeys dec f ≤ MAX_KEYS_PER_FILE ∧ fileBytes dec f ≤ MAX_BYTES_PER_FILE :=
      fun f hf => ⟨hdec f hf, (hex f hf).1, (hex f hf).2⟩
    have hloop := preflightLoop_ok dec req.files hall 0 0
    rw [Nat.zero_add, Nat.zero_add] at hloop
    have hkle : ¬ MAX_TOTAL_KEYS < batchKeys dec req.files :=
      fun hk => hv (Or.inr (Or.inl hk))
    have hble : ¬ MAX_TOTAL_BYTES < batchBytes dec req.files :=
      fun hb => hv (Or.inr (Or.inr hb))
    have hpre : preflight dec req.files =
        .ok (batchKeys dec req.files, batchBytes dec req.files) := by
      simp only [preflight, hloop]
      rw [if_neg hkle, if_neg hble]
    refine ⟨⟨fun h => absurd h hv, fun h => ?_⟩, fun h => absurd h hv⟩
    exfalso
    obtain ⟨m, hm⟩ := h
    cases hout : (r2Loop enc req now req.files).err with
    | some e =>
      have he : (handle_upload dec enc req now ids).resp = .err 500 e := by
        simp [handle_upload, hpre, hout]
      rw [he] at hm
      injection hm with h1 h2
      omega
    | none =>
      have he : (handle_upload dec enc req now ids).resp =
          .ok true (r2Loop enc req now req.files).uploaded
            (r2Loop enc req now req.files).keys := by
        simp [handle_upload, hpre, hout]
      rw [he] at hm
      exact UResponse.noConfusion hm

/-- The count of the 10001-key decoded payload, established through
the replicate length lemma (the long list itself is never
normalized). -/
theorem count_keys_and_bytes_big :
    count_keys_and_bytes bigObjDec packedFile = .ok (10001, 0) := by
  have h1 : count_keys_and_bytes bigObjDec packedFile =
      .ok ((JValue.obj (List.replicate 10001 ("k", JValue.null))).objSize.getD 0, 0) := rfl
  rw [h1]
  show Except.ok ((some (List.replicate 10001 ("k", JValue.null)).length).getD 0, 0) =
    Except.ok (10001, 0)
  rw [List.length_replicate]
  rfl

/-- C1 witness: a concrete decodable one-file request instantiating
the quota-enforcement equivalence. -/
theorem upload_quota_enforcement_witness :
    (∀ f ∈ packedReq.files, (count_keys_and_bytes rawDec f).isOk = true) ∧
    ((quotaViolation rawDec packedReq.files ↔
      ∃ m, (handle_upload rawDec nilEnc packedReq "t" ["i"]).resp = .err 413 m) ∧
     (quotaViolation rawDec packedReq.files →
      (handle_upload rawDec nilEnc packedReq "t" ["i"]).r2Puts = [] ∧
      (handle_upload rawDec nilEnc packedReq "t" ["i"]).d1Records = [])) :=
  ⟨by decide, upload_quota_enforcement rawDec nilEnc packedReq "t" ["i"] (by decide)⟩

/-- C1 counterexample: the second file of the batch exceeds the
per-file key quota (10001 keys), yet the response is a 400 — not the
claimed 413 — because the first file's malformed payload is detected
first. -/
theorem upload_quota_masked_by_decode_error :
    count_keys_and_bytes bigObjDec packedFile = .ok (10001, 0) ∧
    MAX_KEYS_PER_FILE < 10001 ∧
    respStatus (handle_upload bigObjDec nilEnc maskedQuotaReq "t" ["i1", "i2"]).resp =
      some 400 := by
  exact ⟨count_keys_and_bytes_big, by decide, rfl⟩

/-- C2 (amended): a request containing a file whose pre-packed payload
fails base64 or MessagePack decoding is rejected with a 400 before any
object-store or index write — provided no file preceding the malformed
one violates a per-file quota (otherwise the preflight rejects with
that 413 first, see the counterexample); in all preflight rejections
zero writes are performed. -/
theorem upload_malformed_atomic_reject (dec : List Nat → Except String JValue)
    (enc : JValue → List Nat) (req : UploadRequest) (now : String) (ids : List String)
    (pre : List FileToUpload) (bad : FileToUpload) (rest : List FileToUpload)
    (hsplit : req.files = pre ++ bad :: rest)
    (hpre : ∀ f ∈ pre, (count_keys_and_bytes dec f).isOk = true ∧
      fileKeys dec f ≤ MAX_KEYS_PER_FILE ∧ fileBytes dec f ≤ MAX_BYTES_PER_FILE)
    (hbad : (count_keys_and_bytes dec bad).isOk = false) :
    (∃ m, (handle_upload dec enc req now ids).resp = .err 400 m) ∧
    (handle_upload dec enc req now ids).r2Puts = [] ∧
    (handle_upload dec enc req now ids).d1Records = [] := by
  obtain ⟨m, hm⟩ := preflightLoop_err400 dec pre bad rest hpre hbad 0 0
  have hp : preflight dec req.files = .error (400, m) := by
    rw [hsplit]
    simp only [preflight, hm]
  exact ⟨⟨m, by simp [handle_upload, hp]⟩, by simp [handle_upload, hp],
    by simp [handle_upload, hp]⟩

/-- C2 witness: a one-file request whose payload is invalid base64 is
rejected 400 with no writes. -/
theorem upload_malformed_atomic_reject_witness :
    badOnlyReq.files = [] ++ badFile :: [] ∧
    (count_keys_and_bytes rawDec badFile).isOk = false ∧
    ((∃ m, (handle_upload rawDec nilEnc badOnlyReq "t" ["i"]).resp = .err 400 m) ∧
     (handle_upload rawDec nilEnc badOnlyReq "t" ["i"]).r2Puts = [] ∧
     (handle_upload rawDec nilEnc badOnlyReq "t" ["i"]).d1Records = []) :=
  ⟨rfl, by decide,
   upload_malformed_atomic_reject rawDec nilEnc badOnlyReq "t" ["i"] [] badFile []
     rfl (by simp) (by decide)⟩

/-- C2 counterexample: a malformed file sitting behind a
quota-violating file yields a 413, not the claimed 400 — the per-file
quota check of the earlier file fires first. -/
theorem upload_malformed_masked_by_quota :
    (count_keys_and_bytes bigObjDec badFile).isOk = false ∧
    respStatus (handle_upload bigObjDec nilEnc maskedDecodeReq "t" ["i1", "i2"]).resp =
      some 413 := by
  constructor
  · decide
  · obtain ⟨m, hm⟩ := checkFile_err_keys count_keys_and_bytes_big (by decide)
    have hfiles : maskedDecodeReq.files = packedFile :: [badFile] := rfl
    have hloop : preflightLoop bigObjDec maskedDecodeReq.files 0 0 = .error (413, m) := by
      rw [hfiles]
      simp only [preflightLoop, hm]
    have hp : preflight bigObjDec maskedDecodeReq.files = .error (413, m) := by
      simp only [preflight, hloop]
    simp [handle_upload, hp, respStatus]

/-- C5 (amended): whenever the upload succeeds, each index record's
key count is the size of that file's structured `contents` object (as
an i32; 0 for non-objects) — not the quota-step count, which prefers
the decoded pre-packed payload (see the counterexample). -/
theorem upload_d1_keycount_from_contents (dec : List Nat → Except String JValue)
    (enc : JValue → List Nat) (req : UploadRequest) (now : String) (ids : List String)
    (h : (handle_upload dec enc req now ids).resp.isOk = true) :
    (handle_upload dec enc req now ids).d1Records.map (fun r => r.total_keys) =
      req.files.map d1TotalKeys := by
  cases hp : preflight dec req.files with
  | error e =>
    obtain ⟨st, msg⟩ := e
    have he : (handle_upload dec enc req now ids).resp = .err st msg := by
      simp [handle_upload, hp]
    rw [he] at h
    simp [UResponse.isOk] at h
  | ok v =>
    cases hout : (r2Loop enc req now req.files).err with
    | some e =>
      have he : (handle_upload dec enc req now ids).resp = .err 500 e := by
        simp [handle_upload, hp, hout]
      rw [he] at h
      simp [UResponse.isOk] at h
    | none =>
      have hd : (handle_upload dec enc req now ids).d1Records =
          d1Build req now req.files ids := by
        simp [handle_upload, hp, hout]
      rw [hd, d1Build_map_totalKeys]

/-- C5 witness: a successful concrete upload whose index key counts
match the per-file structured-contents counts. -/
theorem upload_d1_keycount_from_contents_witness :
    (handle_upload rawDec nilEnc packedReq "t" ["i"]).resp.isOk = true ∧
    (handle_upload rawDec nilEnc packedReq "t" ["i"]).d1Records.map
        (fun r => r.total_keys) =
      packedReq.files.map d1TotalKeys :=
  ⟨by decide, upload_d1_keycount_from_contents rawDec nilEnc packedReq "t" ["i"] (by decide)⟩

/-- C5 counterexample: a file whose pre-packed payload decodes to a
2-key "raw" object but whose structured contents are empty is counted
with 2 keys by the quota step while its index record stores 0 — the
index does not record the pre-packed count the claim requires. -/
theorem upload_d1_keycount_ignores_packed :
    count_keys_and_bytes rawDec packedFile = .ok (2, 0) ∧
    (handle_upload rawDec nilEnc packedReq "t" ["i"]).d1Records.map
        (fun r => r.total_keys) = [0] ∧
    (0 : Int) ≠ 2 := by
  refine ⟨rfl, ?_, by decide⟩
  rfl
